import Mathlib

/-!
Formal model of the wax ring buffer core
(src/impl/ring_buffer.ipp and src/impl/ring_buffer_anon.hpp).

The C++ code is shallowly embedded: `std::size_t` / `uint64_t` values are
naturals, with arithmetic reduced modulo `2 ^ 64` exactly where the machine
arithmetic can wrap (lap-counter increments, lap arithmetic inside the
classification, and the `write_at - 1` / `write_at - stride` backspace in
`last()`).  Pointers returned by the accessors are modelled either as the
value stored in the addressed slot (typed buffer) or as the byte index of
the addressed slot (type-erased buffer); `nullptr` is `Option.none`.
Thrown `std::invalid_argument` / `std::out_of_range` exceptions and
`assert` failures are modelled as `signal` results paired with the
unchanged state, which makes the no-mutation-on-error contracts explicit.
The per-buffer mutex serializes every cursor operation in the source; the
model therefore treats each operation as one atomic step.
-/

namespace wax

/-- Modulus of `std::size_t` and `uint64_t` on the target platform. -/
def U64 : Nat := 2 ^ 64

/-- `wax::npos` from src/bits/types.hpp: `std::numeric_limits<std::size_t>::max()`. -/
def npos : Nat := U64 - 1

namespace ring

/-- `lappable::cursor::err` — error condition of a cursor. -/
inductive err where
  | none
  | was_lapped
  | is_empty
deriving DecidableEq, Repr

/-- Outcomes of the C++ argument checks: `throw std::invalid_argument` on a
null source pointer, `throw std::invalid_argument` on an oversized length,
the `throw` on an out-of-range index, and a failed `assert`. -/
inductive signal where
  | argument_null
  | argument_length
  | bounds
  | assertion
deriving DecidableEq, Repr

deriving instance DecidableEq for Except

/-- State of `wax::ring::basic` / `wax::ring::lappable` (the typed store):
backing array `ring`, write position, has-any-data flag, and the lap
counter `lap_` added by `lappable` (unused at the `basic` level). -/
structure lappable (α : Type) where
  ring     : List α
  write_at : Nat
  has_data : Bool
  lap_     : Nat
deriving DecidableEq, Repr

/-- Reader-private state of `lappable::cursor::read`: read position,
last-observed lap and the cursor's stored error condition. -/
structure read where
  read_at : Nat
  lap     : Nat
  errno   : err
deriving DecidableEq, Repr

/-- `basic::wrap`: wrap an index with the bit-mask `i & (n_elements - 1)`;
`n_elements` is a compile-time power of two (static_assert). -/
def wrap (C i : Nat) : Nat := i &&& (C - 1)

/-- A fresh buffer of capacity `C`: the constructor default-constructs class
types and zero-fills builtin element storage, so every slot holds the
default value; `write_at = 0`, `has_data = false`, `lap_ = 0`. -/
def initBuf (α : Type) [Inhabited α] (C : Nat) : lappable α :=
  ⟨List.replicate C default, 0, false, 0⟩

/-- A fresh read cursor. -/
def read0 : read := ⟨0, 0, err.none⟩

/-- `lappable::oldest_unsafe`: `npos` when empty, index 0 while the writer
has never wrapped, else the current write position. -/
def oldestUnsafe (buf : lappable α) : Nat :=
  if buf.has_data = false then npos
  else if buf.lap_ = 0 then 0 else buf.write_at

/-- `lappable::cursor::read::peek_unsafe`, the classification algorithm.
Returns the datum at the read position (the target of the returned
pointer) together with the updated reader state.  The source writes the
three guarded error branches followed by one shared success tail; each
`else` below is that shared tail.  `buf.lap() - 1` is `uint64_t`
subtraction, hence the `+ (U64 - 1)` form. -/
def peekUnsafe [Inhabited α] (buf : lappable α) (r : read) : Option α × read :=
  if buf.has_data = false then
    (none, { r with errno := err.is_empty })
  else if r.read_at < buf.write_at then
    if r.lap < buf.lap_ then
      (none, ⟨oldestUnsafe buf, (buf.lap_ + (U64 - 1)) % U64, err.was_lapped⟩)
    else
      (some (buf.ring.getD r.read_at default), { r with errno := err.none })
  else if r.read_at = buf.write_at then
    if r.lap = buf.lap_ then
      (none, { r with errno := err.is_empty })
    else if (r.lap + 1) % U64 < buf.lap_ then
      (none, { r with lap := (buf.lap_ + (U64 - 1)) % U64, errno := err.was_lapped })
    else
      (some (buf.ring.getD r.read_at default), { r with errno := err.none })
  else
    if (r.lap + 1) % U64 ≠ buf.lap_ then
      (none, ⟨oldestUnsafe buf, buf.lap_, err.was_lapped⟩)
    else
      (some (buf.ring.getD r.read_at default), { r with errno := err.none })

/-- `lappable::cursor::read::peek`: lock, then `peek_unsafe`; the lock is
the atomicity of the step. -/
def peek [Inhabited α] (buf : lappable α) (r : read) : Option α × read :=
  peekUnsafe buf r

/-- `lappable::cursor::read::get`: `peek_unsafe`, then on success advance
`read_at` (wrapping) and bump the reader lap when it wraps to 0. -/
def get [Inhabited α] (buf : lappable α) (r : read) : Option α × read :=
  match peekUnsafe buf r with
  | (some v, r1) =>
      let ra := wrap buf.ring.length (r1.read_at + 1)
      let lp := if ra = 0 then (r1.lap + 1) % U64 else r1.lap
      (some v, ⟨ra, lp, r1.errno⟩)
  | (none, r1) => (none, r1)

/-- `basic::next`: advance the write position (mask wrap) and set
`has_data`.  The returned pointer (the slot just vacated) is not needed by
any property below, so only the state effect is kept. -/
def next (buf : lappable α) : lappable α :=
  { buf with write_at := wrap buf.ring.length (buf.write_at + 1), has_data := true }

/-- `lappable::cursor::write::ready`: `next()` under the lock, then bump
the lap counter when `write_at` wrapped to 0. -/
def ready (buf : lappable α) : lappable α :=
  let b := next buf
  if b.write_at = 0 then { b with lap_ := (b.lap_ + 1) % U64 } else b

/-- `lappable::cursor::write::put`: remember `write_at`, obtain the slot
address via `ptr()`, copy the value into that slot, `ready()`, return the
remembered index. -/
def put (buf : lappable α) (v : α) : Nat × lappable α :=
  let was := buf.write_at
  let b := { buf with ring := buf.ring.set buf.write_at v }
  (was, ready b)

/-- `basic::write(value_type *)`: a null source pointer throws
`std::invalid_argument` before any mutation; otherwise copy into the
current slot and `next()` (note: `basic::next`, which does not touch the
lap counter). -/
def write (buf : lappable α) (data : Option α) : Except signal Nat × lappable α :=
  match data with
  | Option.none => (Except.error signal.argument_null, buf)
  | some v =>
      let index := buf.write_at
      let b := { buf with ring := buf.ring.set buf.write_at v }
      (Except.ok index, next b)

/-- `basic::last` (typed): `nullptr` when nothing has ever been written,
else the address of slot `wrap(write_at - 1)`; the `- 1` is `std::size_t`
subtraction.  The pointer is modelled as the slot index. -/
def last (buf : lappable α) : Option Nat :=
  if buf.has_data = false then none
  else some (wrap buf.ring.length ((buf.write_at + (U64 - 1)) % U64))

/-- `lappable::cursor::read::swap`: out-of-range index throws
(`std::invalid_argument`, the BoundsError category of the design) with no
state change; otherwise install the new read index and return the old one.
The reader lap and stored error are not touched. -/
def swap (C idx : Nat) (r : read) : Except signal Nat × read :=
  if C ≤ idx then (Except.error signal.bounds, r)
  else (Except.ok r.read_at, { r with read_at := idx })

/-- `basic::find` (protected range overload): `npos` when the buffer has no
data or the range is inverted, else the first index in `[lo, hi)` whose
slot the predicate matches. -/
def findIn [Inhabited α] (buf : lappable α) (v : α) (p : α → α → Bool)
    (lo hi : Nat) : Nat :=
  if buf.has_data = false then npos
  else if hi < lo then npos
  else (((List.range' lo (hi - lo)).find? fun i => p (buf.ring.getD i default) v).getD npos)

/-- `lappable::find`: the public override scans `[0, write_at)` while the
lap counter is 0 and the whole capacity afterwards. -/
def find [Inhabited α] (buf : lappable α) (v : α) (p : α → α → Bool) : Nat :=
  findIn buf v p 0 (if buf.lap_ = 0 then buf.write_at else buf.ring.length)

/-!  Specification-side rendering of the §4.4 classification reference.
These definitions follow the specification's words, to be compared with
the code-derived `peekUnsafe`/`get` above: `oldest()` is written inline as
"0 when the lap count is 0, else the current write position", and the
`read_at == write_at` lapped branch performs the full reset of case 2
("Reset as in case 2's lapped branch"), including `read_at := oldest()`,
which the code omits. -/

/-- Spec §4.2 `oldest()`, as the specification words it for a non-empty
buffer. -/
def specOldest (buf : lappable α) : Nat :=
  if buf.lap_ = 0 then 0 else buf.write_at

/-- Spec §4.4 classification, case for case as written. -/
def specPeek [Inhabited α] (buf : lappable α) (r : read) : Option α × read :=
  if buf.has_data = false then
    (none, { r with errno := err.is_empty })
  else if r.read_at < buf.write_at then
    if r.lap < buf.lap_ then
      (none, ⟨specOldest buf, (buf.lap_ + (U64 - 1)) % U64, err.was_lapped⟩)
    else
      (some (buf.ring.getD r.read_at default), { r with errno := err.none })
  else if r.read_at = buf.write_at then
    if r.lap = buf.lap_ then
      (none, { r with errno := err.is_empty })
    else if (r.lap + 1) % U64 < buf.lap_ then
      (none, ⟨specOldest buf, (buf.lap_ + (U64 - 1)) % U64, err.was_lapped⟩)
    else
      (some (buf.ring.getD r.read_at default), { r with errno := err.none })
  else
    if (r.lap + 1) % U64 ≠ buf.lap_ then
      (none, ⟨specOldest buf, buf.lap_, err.was_lapped⟩)
    else
      (some (buf.ring.getD r.read_at default), { r with errno := err.none })

/-- Spec §4.4 `get`: the classification, then on success advance `read_at`
with wraparound (plain modulus in the specification) and increment the
reader lap exactly when `read_at` wraps to 0. -/
def specGet [Inhabited α] (buf : lappable α) (r : read) : Option α × read :=
  match specPeek buf r with
  | (some v, r1) =>
      let ra := (r1.read_at + 1) % buf.ring.length
      let lp := if ra = 0 then (r1.lap + 1) % U64 else r1.lap
      (some v, ⟨ra, lp, r1.errno⟩)
  | (none, r1) => (none, r1)

namespace anon

/-- State of `wax::ring::anon::basic` / `anon::lappable` (the type-erased
store): byte array `ring` of `stride * n_rows` bytes, the declared stride
and row count, the byte write position, the has-data flag and the lap
counter added by `anon::lappable`. -/
structure anonLap where
  ring     : List Nat
  stride   : Nat
  n_rows   : Nat
  write_at : Nat
  has_data : Bool
  lap_     : Nat
deriving DecidableEq, Repr

/-- `storage_size = stride * n_rows`. -/
def storageSize (b : anonLap) : Nat := b.stride * b.n_rows

/-- `anon::basic::wrap`: plain modulo, since the byte capacity need not be
a power of two. -/
def wrapA (b : anonLap) (i : Nat) : Nat := i % storageSize b

/-- `std::memcpy` of a byte list into the ring at a byte position. -/
def memcpy : List Nat → Nat → List Nat → List Nat
  | ring, _, [] => ring
  | ring, pos, byte :: bs => memcpy (ring.set pos byte) (pos + 1) bs

/-- `anon::basic::next`: advance the byte write position by one stride
(modulo wrap) and set `has_data`. -/
def next (b : anonLap) : anonLap :=
  { b with write_at := wrapA b (b.write_at + b.stride), has_data := true }

/-- `anon::basic::write(data, len)`: a null pointer or a length exceeding
the stride throws `std::invalid_argument` before any mutation; otherwise
copy `len` bytes into the current row, `next()`, and return the byte index
where writing began. -/
def write (b : anonLap) (data : Option (List Nat)) (len : Nat) :
    Except signal Nat × anonLap :=
  match data with
  | Option.none => (Except.error signal.argument_null, b)
  | some bytes =>
      if b.stride < len then (Except.error signal.argument_length, b)
      else
        let index := b.write_at
        let b1 := { b with ring := memcpy b.ring b.write_at (bytes.take len) }
        (Except.ok index, next b1)

/-- `anon::basic::last`: `nullptr` when nothing has ever been written, else
the byte address `wrap(write_at - stride)`; the subtraction is
`std::size_t` arithmetic, hence the `+ (U64 - stride)` form.  The pointer
is modelled as the byte index. -/
def last (b : anonLap) : Option Nat :=
  if b.has_data = false then none
  else some (wrapA b ((b.write_at + (U64 - b.stride)) % U64))

/-- `anon::lappable::oldest_unsafe`. -/
def oldestUnsafe (b : anonLap) : Nat :=
  if b.has_data = false then npos
  else if b.lap_ = 0 then 0 else b.write_at

/-- `anon::lappable::cursor::write::ready`: `next()` under the lock, then
bump the lap counter when `write_at` wrapped to 0. -/
def ready (b : anonLap) : anonLap :=
  let b1 := next b
  if b1.write_at = 0 then { b1 with lap_ := (b1.lap_ + 1) % U64 } else b1

/-- `anon::lappable::cursor::write::put(data, len)`: the argument checks
here are `assert(data)` and `assert(len <= stride)` (the source even
carries an `// Or throw?` aside), modelled as an assertion failure in an
assert-enabled build; then remember `write_at`, copy through `ptr()` and
`ready()`. -/
def put (b : anonLap) (data : Option (List Nat)) (len : Nat) :
    Except signal Nat × anonLap :=
  match data with
  | Option.none => (Except.error signal.assertion, b)
  | some bytes =>
      if ¬ len ≤ b.stride then (Except.error signal.assertion, b)
      else
        let was := b.write_at
        let b1 := { b with ring := memcpy b.ring b.write_at (bytes.take len) }
        (Except.ok was, ready b1)

/-- `anon::lappable::cursor::read::peek_unsafe`: identical classification
to the typed buffer, over byte indices.  The returned pointer is modelled
as the byte index of the addressed row. -/
def peekUnsafe (b : anonLap) (r : read) : Option Nat × read :=
  if b.has_data = false then
    (none, { r with errno := err.is_empty })
  else if r.read_at < b.write_at then
    if r.lap < b.lap_ then
      (none, ⟨oldestUnsafe b, (b.lap_ + (U64 - 1)) % U64, err.was_lapped⟩)
    else
      (some r.read_at, { r with errno := err.none })
  else if r.read_at = b.write_at then
    if r.lap = b.lap_ then
      (none, { r with errno := err.is_empty })
    else if (r.lap + 1) % U64 < b.lap_ then
      (none, { r with lap := (b.lap_ + (U64 - 1)) % U64, errno := err.was_lapped })
    else
      (some r.read_at, { r with errno := err.none })
  else
    if (r.lap + 1) % U64 ≠ b.lap_ then
      (none, ⟨oldestUnsafe b, b.lap_, err.was_lapped⟩)
    else
      (some r.read_at, { r with errno := err.none })

/-- `anon::lappable::cursor::read::get`: classification, then on success
advance `read_at` by one stride (wrapping) and bump the reader lap when it
wraps to 0. -/
def get (b : anonLap) (r : read) : Option Nat × read :=
  match peekUnsafe b r with
  | (some v, r1) =>
      let ra := wrapA b (r1.read_at + b.stride)
      let lp := if ra = 0 then (r1.lap + 1) % U64 else r1.lap
      (some v, ⟨ra, lp, r1.errno⟩)
  | (none, r1) => (none, r1)

end anon

/-!  One-writer/one-reader operation traces over a typed lap-aware buffer.
Each constructor is one public cursor operation; the per-buffer mutex makes
each an atomic step.  `ptr` (two-phase write, phase 1) inspects state only.
Read-cursor operations never touch the shared store, so a single modelled
reader loses no generality for the store-side invariants. -/

/-- A cursor operation. -/
inductive Op (α : Type) where
  | put (v : α)
  | ptr
  | ready
  | peek
  | get
  | swap (idx : Nat)

/-- A buffer together with one read cursor. -/
structure Sys (α : Type) where
  buf : lappable α
  r   : read

/-- The operations that commit a write (advance the shared write
position): `put` and `ready`. -/
def isCommit : Op α → Bool
  | .put _ => true
  | .ready => true
  | _ => false

/-- One atomic cursor operation. -/
def step [Inhabited α] (s : Sys α) : Op α → Sys α
  | .put v => { s with buf := (put s.buf v).2 }
  | .ptr => s
  | .ready => { s with buf := ready s.buf }
  | .peek => { s with r := (peekUnsafe s.buf s.r).2 }
  | .get => { s with r := (get s.buf s.r).2 }
  | .swap idx => { s with r := (swap s.buf.ring.length idx s.r).2 }

/-- Run a list of operations left to right. -/
def run [Inhabited α] (s : Sys α) : List (Op α) → Sys α
  | [] => s
  | op :: ops => run (step s op) ops

/-- A fresh buffer of capacity `C` with a fresh read cursor. -/
def initSys (α : Type) [Inhabited α] (C : Nat) : Sys α :=
  ⟨initBuf α C, read0⟩

/-!  The polling discipline of §8: after each write the reader calls
`get()` until it returns `nullptr` (the buffer is drained), recording the
values received and the error that ended each drain.  The fuel bounds the
number of polls in one drain; any fuel of at least two lets the reader
both take every available element and observe the terminating error. -/

/-- Poll `get()` repeatedly (at most `fuel` times) until it fails; return
the final reader state, the values received and the stored error of the
failing call. -/
def drain [Inhabited α] (buf : lappable α) : Nat → read → read × List α × err
  | 0, r => (r, [], r.errno)
  | fuel + 1, r =>
      match get buf r with
      | (some v, r1) =>
          let rest := drain buf fuel r1
          (rest.1, v :: rest.2.1, rest.2.2)
      | (none, r1) => (r1, [], r1.errno)

/-- Write the values in order; after each write the reader drains the
buffer.  Returns the final buffer, the final reader, all values received
in order, and the error that ended each per-write drain. -/
def pollRounds [Inhabited α] (fuel : Nat) :
    lappable α → read → List α → lappable α × read × List α × List err
  | buf, r, [] => (buf, r, [], [])
  | buf, r, v :: vs =>
      let buf1 := (put buf v).2
      let dr := drain buf1 fuel r
      let rest := pollRounds fuel buf1 dr.1 vs
      (rest.1, rest.2.1, dr.2.1 ++ rest.2.2.1, dr.2.2 :: rest.2.2.2)

/-- A sample type-erased buffer: stride 3 bytes, 5 rows, 15 bytes of
zeroed storage, nothing written yet. -/
def sampleAnon : anon.anonLap := ⟨List.replicate 15 0, 3, 5, 0, false, 0⟩

/-- `n` one-shot writes of the value 0 through the write cursor. -/
def putsN (n : Nat) : List (Op Nat) := List.replicate n (Op.put 0)

/-- The shared-store part of the reachability invariant: after `n` commits
on a fresh buffer of capacity `C`, the write position is `n % C`, the lap
counter is `(n / C) % 2 ^ 64` and `has_data` records whether any commit
happened. -/
def bufInv (C n : Nat) (buf : lappable α) : Prop :=
  buf.ring.length = C ∧ buf.write_at = n % C ∧
  buf.lap_ = (n / C) % U64 ∧ buf.has_data = decide (0 < n)

/-- The bit-mask wrap equals the modulus for a power-of-two capacity (the
`static_assert` in `basic` enforces exactly this shape). -/
theorem wrap_two_pow (k i : Nat) : wrap (2 ^ k) i = i % 2 ^ k := by
  unfold wrap
  exact Nat.and_pow_two_sub_one_eq_mod i k

/-- Reading back the slot just set. -/
theorem getD_set_self [Inhabited α] (l : List α) (i : Nat) (v : α) (h : i < l.length) :
    (l.set i v).getD i default = v := by
  induction l generalizing i with
  | nil => simp at h
  | cons a tl ih =>
      cases i with
      | zero => rfl
      | succ j =>
          have hj : j < tl.length := by simpa using h
          simpa [List.set, List.getD] using ih j hj

/-- A non-committing cursor operation leaves the shared store untouched. -/
theorem step_buf_noncommit [Inhabited α] (s : Sys α) (op : Op α)
    (h : isCommit op = false) : (step s op).buf = s.buf := by
  cases op <;> first | rfl | simp [isCommit] at h

/-- Effect of `ready()` on the shared store. -/
theorem ready_effects (buf : lappable α) :
    (ready buf).write_at = wrap buf.ring.length (buf.write_at + 1) ∧
    (ready buf).has_data = true ∧
    (ready buf).ring.length = buf.ring.length ∧
    (ready buf).lap_ = (if wrap buf.ring.length (buf.write_at + 1) = 0
                        then (buf.lap_ + 1) % U64 else buf.lap_) := by
  unfold ready next
  split_ifs <;> simp_all

/-- A commit advances the invariant counter by one. -/
theorem bufInv_ready (C k n : Nat) (hC : C = 2 ^ k) (bufA : lappable α)
    (hlen : bufA.ring.length = C) (hw : bufA.write_at = n % C)
    (hl : bufA.lap_ = (n / C) % U64) : bufInv C (n + 1) (ready bufA) := by
  obtain ⟨h1, h2, h3, h4⟩ := ready_effects bufA
  have hwrap : wrap bufA.ring.length (bufA.write_at + 1) = (n + 1) % C := by
    rw [hlen, hw, hC, wrap_two_pow, ← hC, Nat.mod_add_mod]
  refine ⟨by rw [h3, hlen], by rw [h1, hwrap], ?_, by simp [h2]⟩
  rw [h4, hwrap, hl]
  by_cases hz : (n + 1) % C = 0
  · rw [if_pos hz]
    have hdvd : C ∣ (n + 1) := Nat.dvd_of_mod_eq_zero hz
    rw [Nat.succ_div, if_pos hdvd, Nat.mod_add_mod]
  · rw [if_neg hz]
    have hdvd : ¬ C ∣ (n + 1) := by
      intro hd
      obtain ⟨q, hq⟩ := hd
      rw [hq, Nat.mul_mod_right] at hz
      exact hz rfl
    rw [Nat.succ_div, if_neg hdvd, Nat.add_zero]

/-- The invariant is preserved by every cursor operation, counting
commits. -/
theorem bufInv_step [Inhabited α] (C k n : Nat) (hC : C = 2 ^ k) (s : Sys α)
    (op : Op α) (h : bufInv C n s.buf) :
    bufInv C (n + (if isCommit op then 1 else 0)) (step s op).buf := by
  obtain ⟨hlen, hw, hl, hd⟩ := h
  cases op with
  | put v =>
      simp only [isCommit, if_pos]
      exact bufInv_ready C k n hC _ (by simpa using hlen) (by simpa using hw)
        (by simpa using hl)
  | ready =>
      simp only [isCommit, if_pos]
      exact bufInv_ready C k n hC _ hlen hw hl
  | ptr => simpa [isCommit, step] using ⟨hlen, hw, hl, hd⟩
  | peek => simpa [isCommit, step] using ⟨hlen, hw, hl, hd⟩
  | get => simpa [isCommit, step] using ⟨hlen, hw, hl, hd⟩
  | swap idx => simpa [isCommit, step] using ⟨hlen, hw, hl, hd⟩

/-- The invariant along a whole trace. -/
theorem bufInv_run [Inhabited α] (C k : Nat) (hC : C = 2 ^ k)
    (ops : List (Op α)) :
    ∀ (s : Sys α) (n : Nat), bufInv C n s.buf →
      bufInv C (n + ops.countP (fun o => isCommit o)) (run s ops).buf := by
  induction ops with
  | nil => intro s n h; simpa [run] using h
  | cons op ops ih =>
      intro s n h
      have h1 := ih (step s op) (n + (if isCommit op then 1 else 0))
        (bufInv_step C k n hC s op h)
      have harith : n + (if isCommit op then 1 else 0) +
          ops.countP (fun o => isCommit o) =
          n + (op :: ops).countP (fun o => isCommit o) := by
        rw [List.countP_cons]
        by_cases hco : isCommit op
        · simp only [hco, if_true]
          omega
        · simp [hco]
      rw [harith] at h1
      exact h1

/-- The fresh buffer satisfies the invariant at zero commits. -/
theorem bufInv_init (α : Type) [Inhabited α] (C : Nat) :
    bufInv C 0 (initBuf α C) := by
  refine ⟨by simp [initBuf], by simp [initBuf], by simp [initBuf], by simp [initBuf]⟩

/-- The store state reached by any trace of cursor operations on a fresh
power-of-two buffer is determined by the number of commits. -/
theorem bufInv_total (α : Type) [Inhabited α] (k : Nat) (ops : List (Op α)) :
    bufInv (2 ^ k) (ops.countP (fun o => isCommit o))
      (run (initSys α (2 ^ k)) ops).buf := by
  have h := bufInv_run (2 ^ k) k rfl ops (initSys α (2 ^ k)) 0
    (bufInv_init α (2 ^ k))
  simpa using h

/-- Effect of a committing operation on lap counter and data flag. -/
theorem step_commit_effects (α : Type) [Inhabited α] (s : Sys α) (op : Op α)
    (h : isCommit op = true) :
    (step s op).buf.lap_ = (if (step s op).buf.write_at = 0
                            then (s.buf.lap_ + 1) % U64 else s.buf.lap_) ∧
    (step s op).buf.has_data = true := by
  cases op with
  | put v =>
      show (ready _).lap_ = (if (ready _).write_at = 0 then _ else _) ∧
        (ready _).has_data = true
      obtain ⟨e1, e2, e3, e4⟩ :=
        ready_effects { s.buf with ring := s.buf.ring.set s.buf.write_at v }
      rw [e1, e2, e4]
      simp
  | ready =>
      show (ready _).lap_ = (if (ready _).write_at = 0 then _ else _) ∧
        (ready _).has_data = true
      obtain ⟨e1, e2, e3, e4⟩ := ready_effects s.buf
      rw [e1, e2, e4]
      simp
  | ptr => simp [isCommit] at h
  | peek => simp [isCommit] at h
  | get => simp [isCommit] at h
  | swap idx => simp [isCommit] at h

/-- Every element of `putsN n` commits. -/
theorem countP_putsN (n : Nat) :
    (putsN n).countP (fun o => isCommit o) = n := by
  unfold putsN
  induction n with
  | zero => rfl
  | succ m ih =>
      rw [List.replicate_succ, List.countP_cons]
      simp only [ih]
      simp [isCommit]

/-- C6 (amended): under every sequence of cursor operations on one
lap-aware buffer, the lap counter changes exactly at commit steps whose
new write position is 0, where it becomes `(lap + 1) mod 2^64`; being a
64-bit counter it never decreases except at the wrap from `2^64 - 1` to 0
(which needs `2^64` lap increments); and `has_data` is false exactly until
the first commit and never becomes false again. -/
theorem C6_amended_lap_hasdata (α : Type) [Inhabited α] (k : Nat)
    (ops : List (Op α)) (op : Op α) (s : Sys α)
    (hs : s = run (initSys α (2 ^ k)) ops) :
    (s.buf.lap_ ≠ U64 - 1 → s.buf.lap_ ≤ (step s op).buf.lap_) ∧
    ((step s op).buf.lap_ =
      if isCommit op = true ∧ (step s op).buf.write_at = 0
      then (s.buf.lap_ + 1) % U64 else s.buf.lap_) ∧
    ((step s op).buf.has_data = (s.buf.has_data || isCommit op)) ∧
    (s.buf.has_data = true ↔ 0 < ops.countP (fun o => isCommit o)) := by
  have hinv := bufInv_total α k ops
  rw [← hs] at hinv
  obtain ⟨hlen, hw, hl, hd⟩ := hinv
  have hU : 0 < U64 := by unfold U64; positivity
  have hlap_lt : s.buf.lap_ < U64 := by rw [hl]; exact Nat.mod_lt _ hU
  by_cases hc : isCommit op = true
  · obtain ⟨f1, f2⟩ := step_commit_effects α s op hc
    refine ⟨?_, ?_, ?_, ?_⟩
    · intro hne
      rw [f1]
      by_cases hz : (step s op).buf.write_at = 0
      · rw [if_pos hz]
        have : s.buf.lap_ + 1 < U64 := by omega
        rw [Nat.mod_eq_of_lt this]
        omega
      · rw [if_neg hz]
    · rw [f1]
      by_cases hz : (step s op).buf.write_at = 0 <;> simp [hz, hc]
    · rw [f2, hc]
      simp
    · rw [hd]
      simp
  · have hns := step_buf_noncommit s op (by simpa using hc)
    rw [hns]
    refine ⟨fun _ => Nat.le_refl _, ?_, ?_, ?_⟩
    · simp [hc]
    · simp [Bool.of_not_eq_true hc]
    · rw [hd]
      simp

/-- C6 (witness): a single one-shot write on a fresh capacity-4 buffer
sets `has_data`. -/
theorem C6_amended_witness :
    (run (initSys Nat (2 ^ 2)) [Op.put 5]).buf.has_data = true ↔
      0 < ([Op.put 5] : List (Op Nat)).countP (fun o => isCommit o) :=
  (C6_amended_lap_hasdata Nat 2 [Op.put 5] Op.get
    (run (initSys Nat (2 ^ 2)) [Op.put 5]) rfl).2.2.2

/-- C6 (counterexample): the lap counter is a `uint64_t` and therefore
does decrease once along a long enough trace: extending a trace of
`4 * (2^64 - 1)` one-shot writes on a capacity-4 buffer (lap counter
`2^64 - 1`) by four more writes wraps the counter to 0 — strictly below
its previous value.  The claim's "never decreases", read over every
sequence of operations, fails at exactly this wrap. -/
theorem C6_counterexample :
    putsN (4 * (U64 - 1) + 4) = putsN (4 * (U64 - 1)) ++ putsN 4 ∧
    (run (initSys Nat (2 ^ 2)) (putsN (4 * (U64 - 1) + 4))).buf.lap_ <
      (run (initSys Nat (2 ^ 2)) (putsN (4 * (U64 - 1)))).buf.lap_ := by
  have hU2 : 2 ≤ U64 := by unfold U64; norm_num
  constructor
  · unfold putsN
    rw [List.replicate_add]
  · have h1 := (bufInv_total Nat 2 (putsN (4 * (U64 - 1) + 4))).2.2.1
    have h2 := (bufInv_total Nat 2 (putsN (4 * (U64 - 1)))).2.2.1
    rw [countP_putsN] at h1 h2
    have e0 : 4 * (U64 - 1) + 4 = 4 * U64 := by omega
    have e1 : (4 * (U64 - 1) + 4) / 2 ^ 2 = U64 := by
      rw [e0]
      norm_num
    have e2 : 4 * (U64 - 1) / 2 ^ 2 = U64 - 1 := by
      norm_num
    rw [e1, Nat.mod_self] at h1
    rw [e2, Nat.mod_eq_of_lt (by omega)] at h2
    rw [h1, h2]
    omega

/-- C7: `lappable::find` scans `[0, write_at)` while the lap counter is 0
and the full capacity once it is nonzero (first conjunct, over every store
state); consequently, on any state reached by cursor operations with fewer
than `C` commits, `find` — for every value and every predicate, including
predicates matching default-constructed values — returns `npos` or the
index of one of the `n` slots actually written (index `< n`), never the
index of a never-written slot. -/
theorem C7_find_first_lap (α : Type) [Inhabited α] (k : Nat) (ops : List (Op α))
    (n : Nat) (hn : ops.countP (fun o => isCommit o) = n) (hlt : n < 2 ^ k)
    (v : α) (p : α → α → Bool) :
    (∀ (buf : lappable α), ¬ find buf v p = npos →
        find buf v p < (if buf.lap_ = 0 then buf.write_at else buf.ring.length)) ∧
    (find (run (initSys α (2 ^ k)) ops).buf v p = npos ∨
     find (run (initSys α (2 ^ k)) ops).buf v p < n) := by
  have hgen : ∀ (buf : lappable α), ¬ find buf v p = npos →
      find buf v p < (if buf.lap_ = 0 then buf.write_at else buf.ring.length) := by
    intro buf hne
    unfold find findIn at hne ⊢
    by_cases hd : buf.has_data = false
    · rw [if_pos hd] at hne
      exact absurd rfl hne
    · rw [if_neg hd] at hne ⊢
      rw [if_neg (by omega :
        ¬ (if buf.lap_ = 0 then buf.write_at else buf.ring.length) < 0)] at hne ⊢
      rcases hf : (List.range' 0
          ((if buf.lap_ = 0 then buf.write_at else buf.ring.length) - 0)).find?
          (fun i => p (buf.ring.getD i default) v) with _ | i
      · rw [hf] at hne
        exact absurd rfl hne
      · have hmem := List.mem_of_find?_eq_some hf
        have hlt2 := List.mem_range'_1.mp hmem
        simp only [Option.getD_some]
        omega
  refine ⟨hgen, ?_⟩
  have hinv := bufInv_total α k ops
  rw [hn] at hinv
  obtain ⟨hlen, hw, hl, hd⟩ := hinv
  have hdiv : n / 2 ^ k = 0 := Nat.div_eq_of_lt hlt
  have hl0 : (run (initSys α (2 ^ k)) ops).buf.lap_ = 0 := by
    rw [hl, hdiv, Nat.zero_mod]
  have hw0 : (run (initSys α (2 ^ k)) ops).buf.write_at = n := by
    rw [hw]
    exact Nat.mod_eq_of_lt hlt
  by_cases hnp : find (run (initSys α (2 ^ k)) ops).buf v p = npos
  · exact Or.inl hnp
  · right
    have hb := hgen _ hnp
    rw [hl0] at hb
    simp only [if_pos rfl] at hb
    rw [hw0] at hb
    exact hb

/-- C7 (witness): two one-shot writes of 7 on a capacity-4 buffer; a
predicate matching the default value 0 cannot name slots 2 or 3. -/
theorem C7_find_first_lap_witness :
    find (run (initSys Nat (2 ^ 2)) [Op.put 7, Op.put 7]).buf 0
        (fun _ _ => true) = npos ∨
    find (run (initSys Nat (2 ^ 2)) [Op.put 7, Op.put 7]).buf 0
        (fun _ _ => true) < 2 :=
  (C7_find_first_lap Nat 2 [Op.put 7, Op.put 7] 2 (by decide) (by norm_num) 0
    (fun _ _ => true)).2

/-- Backspacing by one slot with unsigned underflow is exact when the
capacity divides the machine modulus: for `0 < n`, `0 < q`,
`((n mod C) + (C·q - 1)) mod (C·q) mod C = (n - 1) mod C`. -/
theorem backspace_mod (C q n : Nat) (hC : 0 < C) (hn : 0 < n) (hq : 0 < q) :
    ((n % C + (C * q - 1)) % (C * q)) % C = (n - 1) % C := by
  set U := C * q with hU
  have hCU : C ≤ U := Nat.le_mul_of_pos_right C hq
  have hUpos : 0 < U := by positivity
  by_cases hm : n % C = 0
  · obtain ⟨p, hp⟩ := Nat.dvd_of_mod_eq_zero hm
    have hppos : 0 < p := by
      rcases Nat.eq_zero_or_pos p with h0 | h0
      · rw [h0, Nat.mul_zero] at hp
        omega
      · exact h0
    have e1 : U - 1 = C * (q - 1) + (C - 1) := by
      have hx : C * q = C * (q - 1) + C := by
        cases q with
        | zero => omega
        | succ q2 => simp [Nat.mul_succ]
      omega
    have e2 : n - 1 = C * (p - 1) + (C - 1) := by
      have hx : C * p = C * (p - 1) + C := by
        cases p with
        | zero => omega
        | succ p2 => simp [Nat.mul_succ]
      omega
    rw [hm, Nat.zero_add, Nat.mod_eq_of_lt (show U - 1 < U by omega), e1, e2,
      Nat.mul_add_mod, Nat.mul_add_mod]
  · have hmlt : n % C < C := Nat.mod_lt _ hC
    have e1 : n % C + (U - 1) = U + (n % C - 1) := by omega
    have e3 : n - 1 = C * (n / C) + (n % C - 1) := by
      have hx := Nat.div_add_mod n C
      omega
    rw [e1, Nat.add_mod_left, Nat.mod_eq_of_lt (show n % C - 1 < U by omega),
      Nat.mod_eq_of_lt (show n % C - 1 < C by omega), e3, Nat.mul_add_mod,
      Nat.mod_eq_of_lt (show n % C - 1 < C by omega)]

/-- The typed `last()` is correct: a `std::size_t` capacity is `2^k` with
`k ≤ 64`, so it divides `2^64` and the masked underflow backspace is
exact — after `n ≥ 1` commits `last()` addresses slot `(n - 1) mod C`, the
most recently committed one.  (This is the typed half of the `last()`
contract; the type-erased half fails, see the C5 theorem.) -/
theorem last_typed_correct (α : Type) [Inhabited α] (k : Nat) (hk : k ≤ 64)
    (ops : List (Op α)) (n : Nat)
    (hn : ops.countP (fun o => isCommit o) = n) (h1 : 0 < n) :
    last (run (initSys α (2 ^ k)) ops).buf = some ((n - 1) % 2 ^ k) := by
  have hinv := bufInv_total α k ops
  rw [hn] at hinv
  obtain ⟨hlen, hw, hl, hd⟩ := hinv
  have hdq : (2 : Nat) ^ k ∣ U64 := by
    unfold U64
    exact pow_dvd_pow 2 hk
  obtain ⟨q, hq⟩ := hdq
  have hqpos : 0 < q := by
    rcases Nat.eq_zero_or_pos q with h0 | h0
    · rw [h0, Nat.mul_zero] at hq
      have hUpos : (0 : Nat) < U64 := by unfold U64; positivity
      omega
    · exact h0
  unfold last
  rw [if_neg (by rw [hd]; simp [h1]), hlen, hw, wrap_two_pow]
  have hb := backspace_mod (2 ^ k) q n (by positivity) h1 hqpos
  rw [← hq] at hb
  rw [hb]

/-- `ready()` never touches the stored elements. -/
theorem ready_ring (buf : lappable α) : (ready buf).ring = buf.ring := by
  simp only [ready, next]
  split_ifs <;> rfl

/-- A `uint64_t` increment never returns its argument. -/
theorem succ_mod_ne (x : Nat) (hx : x < U64) : ¬ (x + 1) % U64 = x := by
  have hU2 : 2 ≤ U64 := by unfold U64; norm_num
  by_cases h : x + 1 < U64
  · rw [Nat.mod_eq_of_lt h]
    omega
  · have hx1 : x + 1 = U64 := by omega
    rw [hx1, Nat.mod_self]
    omega

/-- A reader standing exactly at the writer (same position, same lap)
receives the freshly put value from `get()` and is in sync again
afterwards — across all three classification branches the new write
position can land in (ahead of the reader, wrapped to 0 below it, or equal
to it at capacity 1). -/
theorem get_in_sync (α : Type) [Inhabited α] (k : Nat) (buf : lappable α)
    (r : read) (v : α)
    (hlen : buf.ring.length = 2 ^ k) (hw : buf.write_at < 2 ^ k)
    (hl : buf.lap_ < U64) (hr : r.read_at = buf.write_at)
    (hlap : r.lap = buf.lap_) :
    get (put buf v).2 r =
      (some v, ⟨(put buf v).2.write_at, (put buf v).2.lap_, err.none⟩) ∧
    (put buf v).2.ring.length = 2 ^ k ∧
    (put buf v).2.write_at < 2 ^ k ∧
    (put buf v).2.lap_ < U64 ∧
    (put buf v).2.has_data = true := by
  have hput : (put buf v).2 = ready { buf with ring := buf.ring.set buf.write_at v } := rfl
  set bufA : lappable α := { buf with ring := buf.ring.set buf.write_at v } with hA
  obtain ⟨e1, e2, e3, e4⟩ := ready_effects bufA
  have hAlen : bufA.ring.length = 2 ^ k := by
    rw [hA]
    simpa using hlen
  have hAw : bufA.write_at = buf.write_at := rfl
  have hAl : bufA.lap_ = buf.lap_ := rfl
  have hwrap : wrap bufA.ring.length (bufA.write_at + 1) = (buf.write_at + 1) % 2 ^ k := by
    rw [hAlen, hAw, wrap_two_pow]
  have hUpos : 0 < U64 := by unfold U64; positivity
  have hval : bufA.ring.getD buf.write_at default = v := by
    rw [hA]
    exact getD_set_self buf.ring buf.write_at v (by omega)
  have hring1 : (ready bufA).ring = bufA.ring := ready_ring bufA
  have hw1lt : (ready bufA).write_at < 2 ^ k := by
    rw [e1, hwrap]
    exact Nat.mod_lt _ (by positivity)
  have hl1lt : (ready bufA).lap_ < U64 := by
    rw [e4]
    split_ifs
    · exact Nat.mod_lt _ hUpos
    · rw [hAl]
      exact hl
  have hlen1 : (ready bufA).ring.length = 2 ^ k := by rw [hring1, hAlen]
  by_cases hcase : buf.write_at + 1 < 2 ^ k
  · have hw1 : (ready bufA).write_at = buf.write_at + 1 := by
      rw [e1, hwrap, Nat.mod_eq_of_lt hcase]
    have hl1 : (ready bufA).lap_ = buf.lap_ := by
      rw [e4, hwrap, Nat.mod_eq_of_lt hcase, if_neg (by omega), hAl]
    have hpeek : peekUnsafe (ready bufA) r = (some v, { r with errno := err.none }) := by
      unfold peekUnsafe
      rw [if_neg (by rw [e2]; simp), if_pos (by rw [hw1, hr]; omega),
        if_neg (by rw [hl1, hlap]; omega)]
      rw [hr, hring1, hval]
    rw [hput]
    refine ⟨?_, hlen1, hw1lt, hl1lt, e2⟩
    unfold get
    rw [hpeek]
    have hra : wrap (ready bufA).ring.length (r.read_at + 1) = buf.write_at + 1 := by
      rw [hlen1, wrap_two_pow, hr, Nat.mod_eq_of_lt hcase]
    simp only [hra]
    rw [if_neg (by omega)]
    rw [hw1, hl1, hlap]
  · have hsum : buf.write_at + 1 = 2 ^ k := by omega
    have hw1 : (ready bufA).write_at = 0 := by
      rw [e1, hwrap, hsum, Nat.mod_self]
    have hl1 : (ready bufA).lap_ = (buf.lap_ + 1) % U64 := by
      rw [e4, hwrap, hsum, Nat.mod_self, if_pos rfl, hAl]
    have hpeek : peekUnsafe (ready bufA) r = (some v, { r with errno := err.none }) := by
      unfold peekUnsafe
      rw [if_neg (by rw [e2]; simp)]
      by_cases hone : buf.write_at = 0
      · rw [if_neg (by rw [hw1, hr, hone]; omega),
          if_pos (by rw [hw1, hr, hone]),
          if_neg (by rw [hl1, hlap]; exact fun h => succ_mod_ne buf.lap_ hl h.symm),
          if_neg (by rw [hl1, hlap]; omega)]
        rw [hr, hring1, hval]
      · rw [if_neg (by rw [hw1, hr]; omega), if_neg (by rw [hw1, hr]; omega),
          if_neg (by rw [hl1, hlap]; simp)]
        rw [hr, hring1, hval]
    rw [hput]
    refine ⟨?_, hlen1, hw1lt, hl1lt, e2⟩
    unfold get
    rw [hpeek]
    have hra : wrap (ready bufA).ring.length (r.read_at + 1) = 0 := by
      rw [hlen1, wrap_two_pow, hr, hsum, Nat.mod_self]
    simp only [hra, if_true]
    rw [hw1, hl1, hlap]

/-- A reader standing exactly at the writer with no new data is told
`is_empty` and not moved. -/
theorem get_empty_in_sync (α : Type) [Inhabited α] (buf : lappable α) (r : read)
    (hd : buf.has_data = true) (hr : r.read_at = buf.write_at)
    (hlap : r.lap = buf.lap_) :
    get buf r = (none, { r with errno := err.is_empty }) := by
  have hpeek : peekUnsafe buf r = (none, { r with errno := err.is_empty }) := by
    unfold peekUnsafe
    rw [if_neg (by rw [hd]; simp), if_neg (by rw [hr]; omega), if_pos hr,
      if_pos hlap]
  unfold get
  rw [hpeek]

/-- One unfolding of `drain`. -/
theorem drain_succ (α : Type) [Inhabited α] (buf : lappable α) (fuel : Nat) (r : read) :
    drain buf (fuel + 1) r =
      (match get buf r with
       | (some v, r1) =>
           let rest := drain buf fuel r1
           (rest.1, v :: rest.2.1, rest.2.2)
       | (none, r1) => (r1, [], r1.errno)) := rfl

/-- After one put, an in-sync reader's drain takes exactly the new value
and ends on `is_empty`. -/
theorem drain_in_sync (α : Type) [Inhabited α] (fuel : Nat) (hf : 2 ≤ fuel)
    (buf1 : lappable α) (r : read) (v : α)
    (hget : get buf1 r = (some v, ⟨buf1.write_at, buf1.lap_, err.none⟩))
    (hd : buf1.has_data = true) :
    drain buf1 fuel r = (⟨buf1.write_at, buf1.lap_, err.is_empty⟩, [v], err.is_empty) := by
  obtain ⟨f, rfl⟩ : ∃ f, fuel = f + 2 := ⟨fuel - 2, by omega⟩
  have hnext : get buf1 (⟨buf1.write_at, buf1.lap_, err.none⟩ : read) =
      (none, ⟨buf1.write_at, buf1.lap_, err.is_empty⟩) := by
    have h := get_empty_in_sync α buf1 ⟨buf1.write_at, buf1.lap_, err.none⟩ hd rfl rfl
    simpa using h
  show drain buf1 (f + 1 + 1) r = _
  simp only [drain_succ, hget, hnext]

/-- The §8 polling discipline keeps a reader in sync for any number of
writes on any power-of-two capacity: every written value is received, in
order, and every drain ends with `is_empty`. -/
theorem pollRounds_in_sync (α : Type) [Inhabited α] (k fuel : Nat)
    (hf : 2 ≤ fuel) (vs : List α) :
    ∀ (buf : lappable α) (r : read),
      buf.ring.length = 2 ^ k → buf.write_at < 2 ^ k → buf.lap_ < U64 →
      r.read_at = buf.write_at → r.lap = buf.lap_ →
      (pollRounds fuel buf r vs).2.2.1 = vs ∧
      (∀ e ∈ (pollRounds fuel buf r vs).2.2.2, e = err.is_empty) := by
  induction vs with
  | nil =>
      intro buf r _ _ _ _ _
      exact ⟨rfl, by simp [pollRounds]⟩
  | cons v vs ih =>
      intro buf r h1 h2 h3 h4 h5
      obtain ⟨hget, hlen1, hw1, hl1, hd1⟩ := get_in_sync α k buf r v h1 h2 h3 h4 h5
      have hdr := drain_in_sync α fuel hf (put buf v).2 r v hget hd1
      have hrest := ih (put buf v).2
        ⟨(put buf v).2.write_at, (put buf v).2.lap_, err.is_empty⟩
        hlen1 hw1 hl1 rfl rfl
      simp only [pollRounds]
      rw [hdr]
      refine ⟨?_, ?_⟩
      · simp only [List.cons_append, List.nil_append]
        rw [hrest.1]
      · intro e he
        simp only [List.mem_cons] at he
        rcases he with he | he
        · exact he
        · exact hrest.2 e he

/-- C4 (amended): for every power-of-two capacity and every sequence of
`N` writes, a reader created before the first write and polled to
exhaustion after each write receives exactly the `N` written elements,
oldest-first, every drain ends with `is_empty`, and `was_lapped` is never
observed: a reader that keeps pace is never lapped, so nothing is ever
dropped to `min(N, C)`. -/
theorem C4_amended_keepup (α : Type) [Inhabited α] (k fuel : Nat)
    (hf : 2 ≤ fuel) (vs : List α) :
    (pollRounds fuel (initBuf α (2 ^ k)) read0 vs).2.2.1 = vs ∧
    ∀ e ∈ (pollRounds fuel (initBuf α (2 ^ k)) read0 vs).2.2.2, e = err.is_empty :=
  pollRounds_in_sync α k fuel hf vs (initBuf α (2 ^ k)) read0
    (by simp [initBuf])
    (by simp only [initBuf]; positivity)
    (by simp only [initBuf]; unfold U64; positivity)
    rfl rfl

/-- C4 (witness): three writes on a capacity-4 buffer, drained with fuel
2 after each; the reader receives all three values. -/
theorem C4_amended_keepup_witness :
    2 ≤ 2 ∧ (pollRounds 2 (initBuf Nat (2 ^ 2)) read0 [7, 8, 9]).2.2.1 = [7, 8, 9] :=
  ⟨by decide, (C4_amended_keepup Nat 2 2 (by decide) [7, 8, 9]).1⟩

/-- C4 (counterexample): with capacity 4 and `N = 5` writes the
continuously polled reader receives 5 elements, not `min(5, 4) = 4` — the
claimed count is wrong for `N > C` because a reader that keeps pace loses
nothing. -/
theorem C4_counterexample :
    (pollRounds 2 (initBuf Nat 4) read0 [10, 20, 30, 40, 50]).2.2.1.length = 5 ∧
    ¬ (pollRounds 2 (initBuf Nat 4) read0 [10, 20, 30, 40, 50]).2.2.1.length =
        min 5 4 := by
  decide

/-- C1: the spec promises that after any `was_lapped` report the reader is
repositioned to the oldest still-valid element and the immediately
following `peek()`/`get()` on that cursor returns a data element.  The code
breaks the promise in the `read_at > write_at` branch: that reset sets the
reader lap to the writer lap (not writer lap minus one), so the following
call classifies the reader as fully caught up and reports `is_empty`,
although unread valid data survives.  Concretely on a capacity-4 buffer:
write 10, 20, 30; read all three; write 40, 50, 60, 70, 80, 90.  The store
then holds 90, 60, 70, 80 (60, 70, 80, 90 are valid and unread), the
reader stands at `read_at = 3 > write_at = 1` with lap 0 against writer
lap 2; `get()` reports `was_lapped`, and the immediately following `get()`
reports `is_empty` and returns no data element. -/
theorem C1_lapped_recovery_bug :
    (let s := run (initSys Nat 4)
        [Op.put 10, Op.put 20, Op.put 30, Op.get, Op.get, Op.get,
         Op.put 40, Op.put 50, Op.put 60, Op.put 70, Op.put 80, Op.put 90]
     let g1 := get s.buf s.r
     let g2 := get s.buf g1.2
     s.buf = ⟨[90, 60, 70, 80], 1, true, 2⟩ ∧
     s.r = ⟨3, 0, err.none⟩ ∧
     g1.1 = none ∧ g1.2.errno = err.was_lapped ∧
     g1.2 = ⟨1, 2, err.was_lapped⟩ ∧
     g2.1 = none ∧ g2.2.errno = err.is_empty ∧
     ¬ g2.2.errno = err.none) := by
  decide

/-- C3: in the §8 capacity-4 scenario (writer puts 10, 20, 30, 40, 50; the
reader drains after each write), the poll that follows the write of 50
returns the value 50 with no error — not `was_lapped` — and the poll after
that reports `is_empty`, not the value 20: the reader kept pace with the
writer, so it was never lapped. -/
theorem C3_counterexample :
    (let t := pollRounds 2 (initBuf Nat 4) read0 [10, 20, 30, 40]
     let buf5 := (put t.1 50).2
     let g1 := get buf5 t.2.1
     let g2 := get buf5 g1.2
     g1.1 = some 50 ∧ g1.2.errno = err.none ∧
     ¬ g1.2.errno = err.was_lapped ∧
     g2.1 = none ∧ g2.2.errno = err.is_empty ∧ ¬ g2.1 = some 20) := by
  decide

/-- C3 (amended): capacity 4, writer puts 10, 20, 30, 40, 50, the single
reader drains with `get()` after each write.  The reader receives exactly
10, 20, 30, 40, 50 in order, every drain ends with `is_empty`, and
`was_lapped` is never observed. -/
theorem C3_amended_scenario :
    (let t := pollRounds 2 (initBuf Nat 4) read0 [10, 20, 30, 40, 50]
     t.2.2.1 = [10, 20, 30, 40, 50] ∧
     t.2.2.2 = [err.is_empty, err.is_empty, err.is_empty, err.is_empty,
                err.is_empty]) := by
  decide

/-- C5: in the type-erased store the claim fails.  With stride 3 and 5
rows (15 bytes of storage), five writes bring `write_at` back to 0; the
fifth write commits the row starting at byte index 12, but `last()`
computes `wrap(write_at - stride)` with `std::size_t` underflow and plain
modulo, yielding `(2^64 - 3) mod 15 = 13` — a misaligned byte address in
the middle of the final row instead of 12, the start of the most recently
committed row.  (The typed store is immune: its power-of-two capacity
divides `2^64`, so the masked underflow is exact.) -/
theorem C5_anon_last_bug :
    (let b1 := (anon.write sampleAnon (some [1, 1, 1]) 3).2
     let b2 := (anon.write b1 (some [2, 2, 2]) 3).2
     let b3 := (anon.write b2 (some [3, 3, 3]) 3).2
     let b4 := (anon.write b3 (some [4, 4, 4]) 3).2
     let w5 := anon.write b4 (some [5, 5, 5]) 3
     w5.1 = Except.ok 12 ∧ w5.2.write_at = 0 ∧ w5.2.has_data = true ∧
     anon.last w5.2 = some 13 ∧ ¬ anon.last w5.2 = some 12) := by
  decide

/-- C8 (amended): the direct store writes check their arguments and signal
an ArgumentError with no mutation — `basic::write` rejects a null source
pointer, `anon::basic::write` rejects a null source pointer and a length
exceeding the stride.  The type-erased cursor `put()`, however, enforces
the same two preconditions with `assert`, i.e. by terminating the program
in an assert-enabled build rather than by signaling a recoverable
ArgumentError; no mutation occurs when a check fires. -/
theorem C8_amended_argument_checks (α : Type) (buf : lappable α)
    (b : anon.anonLap) (bytes : List Nat) (len : Nat) :
    write buf (Option.none : Option α) = (Except.error signal.argument_null, buf) ∧
    anon.write b Option.none len = (Except.error signal.argument_null, b) ∧
    (b.stride < len →
      anon.write b (some bytes) len = (Except.error signal.argument_length, b)) ∧
    anon.put b Option.none len = (Except.error signal.assertion, b) ∧
    (b.stride < len →
      anon.put b (some bytes) len = (Except.error signal.assertion, b)) := by
  refine ⟨rfl, rfl, ?_, rfl, ?_⟩
  · intro h
    simp only [anon.write, if_pos h]
  · intro h
    have h2 : ¬ len ≤ b.stride := by omega
    simp only [anon.put, if_pos h2]

/-- C8 (witness): concrete oversized write on a stride-3 buffer. -/
theorem C8_amended_argument_checks_witness :
    sampleAnon.stride < 4 ∧
    anon.write sampleAnon (some [9, 9, 9, 9]) 4 =
      (Except.error signal.argument_length, sampleAnon) ∧
    anon.put sampleAnon (some [9, 9, 9, 9]) 4 =
      (Except.error signal.assertion, sampleAnon) :=
  ⟨by decide,
   (C8_amended_argument_checks Nat (initBuf Nat 4) sampleAnon [9, 9, 9, 9] 4).2.2.1
     (by decide),
   (C8_amended_argument_checks Nat (initBuf Nat 4) sampleAnon [9, 9, 9, 9] 4).2.2.2.2
     (by decide)⟩

/-- C8 (counterexample): an oversized payload handed to the type-erased
cursor `put()` trips the assertion; it does not signal either ArgumentError
variant, contradicting the claim that every write operation signals an
ArgumentError for these inputs. -/
theorem C8_counterexample :
    anon.put sampleAnon (some [9, 9, 9, 9]) 4 =
      (Except.error signal.assertion, sampleAnon) ∧
    ¬ signal.assertion = signal.argument_length ∧
    ¬ signal.assertion = signal.argument_null := by
  decide

/-- C9: `swap(idx)` with an out-of-range index throws (the BoundsError
category: out-of-range index on cursor repositioning) and leaves the
reader untouched; with an in-range index it returns the previous read
position and installs the new one, leaving the reader lap and stored error
entirely unchanged — no recomputation or validation of the lap occurs. -/
theorem C9_swap_contract (C idx : Nat) (r : read) :
    (C ≤ idx → swap C idx r = (Except.error signal.bounds, r)) ∧
    (idx < C → swap C idx r = (Except.ok r.read_at, { r with read_at := idx })) := by
  constructor
  · intro h
    simp only [swap, if_pos h]
  · intro h
    have h2 : ¬ C ≤ idx := by omega
    simp only [swap, if_neg h2]

/-- C2: the code's classification agrees with the §4.4 reference on every
reader/writer state: `peek_unsafe` equals the specification's case table
(including the lapped resets, where the specification's additional
`read_at := oldest()` in the `read_at == write_at` branch is a no-op
because there `oldest()` is the write position, which already equals this
reader's position), `get` equals the specification's classify-then-advance
(advance with wraparound, reader lap incremented exactly when `read_at`
wraps to 0), and on success `peek_unsafe` leaves the reader position and
lap unchanged. -/
theorem C2_classification (α : Type) [Inhabited α] (k : Nat) (buf : lappable α)
    (r : read) (hC : buf.ring.length = 2 ^ k) :
    peekUnsafe buf r = specPeek buf r ∧
    get buf r = specGet buf r ∧
    (∀ v r1, peekUnsafe buf r = (some v, r1) →
      r1.read_at = r.read_at ∧ r1.lap = r.lap) := by
  have hpeek : peekUnsafe buf r = specPeek buf r := by
    unfold peekUnsafe specPeek oldestUnsafe specOldest
    split_ifs <;> first | rfl | omega | simp_all
  refine ⟨hpeek, ?_, ?_⟩
  · unfold get specGet
    rw [hpeek]
    rcases hsp : specPeek buf r with ⟨o, r1⟩
    cases o <;> simp [wrap_two_pow, hC]
  · intro v r1 h
    unfold peekUnsafe at h
    split_ifs at h <;> injection h with h1 h2 <;>
      first
        | exact Option.noConfusion h1
        | (subst h2; exact ⟨rfl, rfl⟩)

/-- C2 (witness): a capacity-4 buffer in the lapped state of the C1 trace;
the classification and its advance agree with the specification there. -/
theorem C2_classification_witness :
    (lappable.mk [90, 60, 70, 80] 1 true 2 : lappable Nat).ring.length = 2 ^ 2 ∧
    get (lappable.mk [90, 60, 70, 80] 1 true 2) ⟨3, 0, err.none⟩ =
      specGet (lappable.mk [90, 60, 70, 80] 1 true 2) ⟨3, 0, err.none⟩ :=
  ⟨by decide,
   (C2_classification Nat 2 (lappable.mk [90, 60, 70, 80] 1 true 2)
     ⟨3, 0, err.none⟩ (by decide)).2.1⟩

/-- C10: on both the typed and the type-erased read cursor, `peek()` and
`get()` compute their result and stored error afresh on every call — the
outcome is independent of whatever error the cursor held before (the call
first clears it to `none`) — and they return `nullptr` exactly when they
set the error to `is_empty` or `was_lapped`; equivalently, after the call
the stored error is `none` exactly when a data pointer was returned. -/
theorem C10_errno_contract (α : Type) [Inhabited α] (buf : lappable α)
    (b : anon.anonLap) (r : read) (e : err) :
    peekUnsafe buf { r with errno := e } = peekUnsafe buf r ∧
    get buf { r with errno := e } = get buf r ∧
    ((peekUnsafe buf r).1 = none ↔
      ((peekUnsafe buf r).2.errno = err.is_empty ∨
       (peekUnsafe buf r).2.errno = err.was_lapped)) ∧
    ((peekUnsafe buf r).2.errno = err.none ↔ (peekUnsafe buf r).1.isSome = true) ∧
    ((get buf r).1 = none ↔
      ((get buf r).2.errno = err.is_empty ∨ (get buf r).2.errno = err.was_lapped)) ∧
    ((get buf r).2.errno = err.none ↔ (get buf r).1.isSome = true) ∧
    anon.peekUnsafe b { r with errno := e } = anon.peekUnsafe b r ∧
    anon.get b { r with errno := e } = anon.get b r ∧
    ((anon.peekUnsafe b r).1 = none ↔
      ((anon.peekUnsafe b r).2.errno = err.is_empty ∨
       (anon.peekUnsafe b r).2.errno = err.was_lapped)) ∧
    ((anon.peekUnsafe b r).2.errno = err.none ↔
      (anon.peekUnsafe b r).1.isSome = true) ∧
    ((anon.get b r).1 = none ↔
      ((anon.get b r).2.errno = err.is_empty ∨
       (anon.get b r).2.errno = err.was_lapped)) ∧
    ((anon.get b r).2.errno = err.none ↔ (anon.get b r).1.isSome = true) := by
  have hind : peekUnsafe buf { r with errno := e } = peekUnsafe buf r := by
    cases r with
    | mk ra lp e0 =>
      unfold peekUnsafe
      split_ifs <;> rfl
  have hinda : anon.peekUnsafe b { r with errno := e } = anon.peekUnsafe b r := by
    cases r with
    | mk ra lp e0 =>
      unfold anon.peekUnsafe
      split_ifs <;> rfl
  have hpk : ((peekUnsafe buf r).1 = none ↔
      ((peekUnsafe buf r).2.errno = err.is_empty ∨
       (peekUnsafe buf r).2.errno = err.was_lapped)) ∧
      ((peekUnsafe buf r).2.errno = err.none ↔ (peekUnsafe buf r).1.isSome = true) := by
    unfold peekUnsafe
    split_ifs <;> simp
  have hpka : ((anon.peekUnsafe b r).1 = none ↔
      ((anon.peekUnsafe b r).2.errno = err.is_empty ∨
       (anon.peekUnsafe b r).2.errno = err.was_lapped)) ∧
      ((anon.peekUnsafe b r).2.errno = err.none ↔
        (anon.peekUnsafe b r).1.isSome = true) := by
    unfold anon.peekUnsafe
    split_ifs <;> simp
  have hgt : ((get buf r).1 = none ↔
      ((get buf r).2.errno = err.is_empty ∨ (get buf r).2.errno = err.was_lapped)) ∧
      ((get buf r).2.errno = err.none ↔ (get buf r).1.isSome = true) := by
    unfold get
    rcases hp : peekUnsafe buf r with ⟨o, r1⟩
    rw [hp] at hpk
    cases o <;> simp_all
  have hgta : ((anon.get b r).1 = none ↔
      ((anon.get b r).2.errno = err.is_empty ∨
       (anon.get b r).2.errno = err.was_lapped)) ∧
      ((anon.get b r).2.errno = err.none ↔ (anon.get b r).1.isSome = true) := by
    unfold anon.get
    rcases hp : anon.peekUnsafe b r with ⟨o, r1⟩
    rw [hp] at hpka
    cases o <;> simp_all
  have hgind : get buf { r with errno := e } = get buf r := by
    unfold get
    rw [hind]
  have hginda : anon.get b { r with errno := e } = anon.get b r := by
    unfold anon.get
    rw [hinda]
  exact ⟨hind, hgind, hpk.1, hpk.2, hgt.1, hgt.2, hinda, hginda,
         hpka.1, hpka.2, hgta.1, hgta.2⟩

/-- C9 (witness): capacity 4, an out-of-range swap to 7 and an in-range
swap to 2 on a fresh reader. -/
theorem C9_swap_contract_witness :
    (4 ≤ 7 ∧ swap 4 7 read0 = (Except.error signal.bounds, read0)) ∧
    (2 < 4 ∧ swap 4 2 read0 = (Except.ok 0, ⟨2, 0, err.none⟩)) :=
  ⟨⟨by decide, (C9_swap_contract 4 7 read0).1 (by decide)⟩,
   ⟨by decide, (C9_swap_contract 4 2 read0).2 (by decide)⟩⟩

end ring

end wax
